import Mathlib

set_option maxHeartbeats 1000000

/-!
Shallow embedding of the content-processing pipeline of this repository
(`src/src/processors/content_processor.py`, class `ContentProcessor`), together
with theorems settling the specification claims about it.

String primitives of the Python runtime (`str.lower`, substring containment via
`in`, `re.findall(r"\b\w+\b", ...)`, `str.strip`, whitespace collapsing) are
modelled at the ASCII level, which covers every keyword list and every input the
claims mention.
-/

/-- ASCII model of Python `str.lower` on a single character. -/
def lowerChar (c : Char) : Char :=
  if 'A' ≤ c ∧ c ≤ 'Z' then Char.ofNat (c.toNat + 32) else c

/-- ASCII model of Python `str.lower`. -/
def lowerStr (s : String) : String :=
  String.mk (s.data.map lowerChar)

/-- `needle` is a leading block of `hay` (helper for substring containment). -/
def listHasPre : List Char → List Char → Bool
  | [], _ => true
  | _ :: _, [] => false
  | c :: cs, d :: ds => c == d && listHasPre cs ds

def strContainsAux (needle : List Char) : List Char → Bool
  | [] => listHasPre needle []
  | c :: cs => listHasPre needle (c :: cs) || strContainsAux needle cs

/-- Model of Python `needle in hay` substring containment. -/
def strContains (hay needle : String) : Bool :=
  strContainsAux needle.data hay.data

/-- `self.ai_keywords['high_priority']` from `ContentProcessor.__init__`. -/
def high_priority_keywords : List String :=
  ["artificial intelligence", "machine learning", "deep learning",
   "neural network", "large language model", "llm", "gpt",
   "transformer", "generative ai", "chatbot", "openai",
   "anthropic", "google ai", "microsoft ai", "meta ai",
   "deepmind", "hugging face", "stability ai"]

/-- `self.ai_keywords['medium_priority']` from `ContentProcessor.__init__`. -/
def medium_priority_keywords : List String :=
  ["automation", "computer vision", "natural language",
   "nlp", "ai model", "algorithm", "data science",
   "tensorflow", "pytorch", "keras", "scikit-learn",
   "ai startup", "ai funding", "ai ethics", "ai regulation"]

/-- `self.ai_keywords['tech_context']` from `ContentProcessor.__init__`. -/
def tech_context_keywords : List String :=
  ["tech", "technology", "software", "startup",
   "funding", "vc", "venture capital", "investment",
   "api", "platform", "cloud", "saas"]

/-- `self.ai_keywords.values()` flattened in dict insertion order
(`high_priority`, `medium_priority`, `tech_context`), the order in which
`get_trending_topics` iterates the keyword lists. -/
def all_keywords : List String :=
  high_priority_keywords ++ medium_priority_keywords ++ tech_context_keywords

/-- An article record flowing through the pipeline.  Raw text fields default to
the empty string (Python `article.get(k, '')`); fields the pipeline may add are
`Option`-valued (`none` models an absent dict key, and for `hash` the Python
falsy check also treats `some ""` as absent). -/
structure Article where
  title : String := ""
  content : String := ""
  url : String := ""
  source : String := ""
  date : String := ""
  hash : Option String := none
  relevance_score : Option Nat := none
  priority : Option String := none
  summary : Option String := none
  processed_date : Option String := none
deriving DecidableEq

/-- `f"{title} {content}"` over the lower-cased title and content, as built at
the top of `_calculate_relevance_score`, `_determine_priority` and
`get_trending_topics`. -/
def combinedText (a : Article) : String :=
  lowerStr a.title ++ " " ++ lowerStr a.content

/-- The `tech_context` loop of `_calculate_relevance_score`: 1 point per
matching keyword while `tech_score < 3`. -/
def techLoop (combined : String) : List String → Nat → Nat
  | [], t => t
  | kw :: rest, t =>
    if strContains combined kw ∧ t < 3 then techLoop combined rest (t + 1)
    else techLoop combined rest t

/-- `ContentProcessor._calculate_relevance_score`: 3 points per matching
high-priority keyword (+2 title bonus), 2 per medium keyword (+1 title bonus),
then the capped tech-context contribution. -/
def calculate_relevance_score (a : Article) : Nat :=
  (medium_priority_keywords.foldl
    (fun sc kw =>
      if strContains (combinedText a) kw then
        (if strContains (lowerStr a.title) kw then sc + 2 + 1 else sc + 2)
      else sc)
    (high_priority_keywords.foldl
      (fun sc kw =>
        if strContains (combinedText a) kw then
          (if strContains (lowerStr a.title) kw then sc + 3 + 2 else sc + 3)
        else sc)
      0))
  + techLoop (combinedText a) tech_context_keywords 0

example : calculate_relevance_score { title := "gpt" } = 5 := by decide
example : calculate_relevance_score { content := "weather is sunny" } = 0 := by decide

/-- Python regex `\s` at the ASCII level (space, tab, newline, carriage return,
vertical tab, form feed). -/
def isPyWs (c : Char) : Bool :=
  c == ' ' || c == '\t' || c == '\n' || c == '\r' || c == Char.ofNat 11 || c == Char.ofNat 12

def dropWsLead : List Char → List Char
  | [] => []
  | c :: cs => if isPyWs c then dropWsLead cs else c :: cs

/-- Model of Python `str.strip()`. -/
def trimStr (s : String) : String :=
  String.mk (dropWsLead ((dropWsLead s.data.reverse).reverse))

def wsToSpace (c : Char) : Char := if isPyWs c then ' ' else c

def squeeze : List Char → List Char
  | [] => []
  | [c] => [c]
  | c :: d :: rest =>
    if c == ' ' && d == ' ' then squeeze (d :: rest) else c :: squeeze (d :: rest)

/-- `re.sub(r"\s+", " ", content).strip()` from `_generate_summary`: each
maximal whitespace run becomes a single space, then both ends are stripped. -/
def normalizeWs (s : String) : String :=
  trimStr (String.mk (squeeze (s.data.map wsToSpace)))

def isSentEnd (c : Char) : Bool := c == '.' || c == '!' || c == '?'

/-- `re.split(r"[.!?]+", content)`: split on maximal runs of sentence enders;
the flag records whether the previous character was an ender (so a run yields a
single split point). -/
def splitSentAux : List Char → List Char → Bool → List String
  | [], acc, _ => [String.mk acc.reverse]
  | c :: cs, acc, prevEnd =>
    if isSentEnd c then
      if prevEnd then splitSentAux cs acc prevEnd
      else String.mk acc.reverse :: splitSentAux cs [] true
    else splitSentAux cs (c :: acc) false

/-- The sentence-accumulating loop of `_generate_summary` (`summary`,
`char_count`, `sentence_count`; `break` on overflow, `continue` on empties). -/
def summaryLoop : List String → String → Nat → Nat → String
  | [], summary, _, _ => summary
  | s :: rest, summary, cc, sc =>
    if trimStr s = "" then summaryLoop rest summary cc sc
    else if 200 < cc + (trimStr s).length ∨ 3 ≤ sc then summary
    else summaryLoop rest (summary ++ trimStr s ++ ". ") (cc + (trimStr s).length) (sc + 1)

/-- `ContentProcessor._generate_summary`. -/
def generate_summary (content : String) : String :=
  if content = "" then ""
  else trimStr (summaryLoop (splitSentAux (normalizeWs content).data [] false) "" 0 0)

/-- `critical_terms` from `_determine_priority`. -/
def critical_terms : List String :=
  ["breakthrough", "major announcement", "new model",
   "gpt-5", "gpt-4", "claude", "gemini", "llama",
   "acquisition", "merger", "funding round", "ipo",
   "partnership", "collaboration", "investment"]

/-- `high_priority_terms` from `_determine_priority`. -/
def high_priority_terms : List String :=
  ["launch", "release", "unveil", "introduce",
   "upgrade", "improvement", "feature", "update",
   "research", "study", "paper", "findings"]

/-- `ContentProcessor._determine_priority`: the if-chain over the score and the
indicator-term scans. -/
def determine_priority (a : Article) (relevance_score : Nat) : String :=
  if 10 ≤ relevance_score then "critical"
  else if critical_terms.any (fun t => strContains (combinedText a) t) then "critical"
  else if 6 ≤ relevance_score ∨ high_priority_terms.any (fun t => strContains (combinedText a) t) then "high"
  else if 4 ≤ relevance_score then "medium"
  else "low"

example : determine_priority { title := "acquisition" } 3 = "critical" := by decide
example : determine_priority {} 6 = "high" := by decide
example : determine_priority {} 4 = "medium" := by decide
example : determine_priority {} 3 = "low" := by decide

/-- The hash-defaulting step of `_is_duplicate`: when `article.get('hash')` is
falsy (absent or empty), `md5hex(title + content)` is stored on the record.
`md5hex` abstracts `hashlib.md5(...).hexdigest()`, a fixed pure function of its
input string; every theorem below holds for an arbitrary such function. -/
def withHash (md5hex : String → String) (a : Article) : Article :=
  if a.hash.getD "" = "" then { a with hash := some (md5hex (a.title ++ a.content)) }
  else a

/-- The enrichment block of `process_articles` (fields set on an accepted
record; `now` abstracts `datetime.now().isoformat()`). -/
def enrich (now : String) (a : Article) (score : Nat) : Article :=
  { a with relevance_score := some score,
           processed_date := some now,
           summary := some (generate_summary a.content),
           priority := some (determine_priority a score) }

/-- The main loop of `process_articles` over the raw batch: skip on a seen
hash, skip on `relevance_score < 2`, otherwise enrich, append and record the
hash.  The seen-hash set is threaded as a list (membership-equivalent to the
Python set). -/
def processLoop (md5hex : String → String) (now : String) :
    List Article → List String → List Article × List String
  | [], seen => ([], seen)
  | a :: rest, seen =>
    if (withHash md5hex a).hash.getD "" ∈ seen then processLoop md5hex now rest seen
    else if 2 ≤ calculate_relevance_score (withHash md5hex a) then
      (enrich now (withHash md5hex a) (calculate_relevance_score (withHash md5hex a)) ::
        (processLoop md5hex now rest ((withHash md5hex a).hash.getD "" :: seen)).1,
       (processLoop md5hex now rest ((withHash md5hex a).hash.getD "" :: seen)).2)
    else processLoop md5hex now rest seen

/-- Code-point lexicographic string order (Python `str` comparison), as used by
the tuple sort key of `process_articles`. -/
def charListLe : List Char → List Char → Bool
  | [], _ => true
  | _ :: _, [] => false
  | c :: cs, d :: ds => if c = d then charListLe cs ds else decide (c < d)

def strLe (a b : String) : Bool := charListLe a.data b.data

/-- The descending sort key relation of `process_articles`:
`key=lambda x: (x['relevance_score'], x.get('date', '')), reverse=True`.
`keyGeProp a b` holds when `a` may precede `b` in the descending order. -/
def keyGeProp (a b : Article) : Prop :=
  b.relevance_score.getD 0 < a.relevance_score.getD 0 ∨
    (a.relevance_score.getD 0 = b.relevance_score.getD 0 ∧ strLe b.date a.date = true)

instance : DecidableRel keyGeProp := fun a b => by
  unfold keyGeProp; infer_instance

/-- `ContentProcessor.process_articles`.  Python's `list.sort` is a stable sort
by the key; a stable sort w.r.t. a total preorder has a unique output, so it is
modelled by `List.insertionSort` over `keyGeProp` (which is stable and sorts
by the same relation). -/
def process_articles (md5hex : String → String) (now : String)
    (articles : List Article) (seen : List String) : List Article × List String :=
  (List.insertionSort keyGeProp (processLoop md5hex now articles seen).1,
   (processLoop md5hex now articles seen).2)

example :
    (process_articles (fun s => s) "t" [{ title := "gpt" }] []).1 =
      [{ title := "gpt", hash := some "gpt", relevance_score := some 5,
         priority := some "medium", summary := some "", processed_date := some "t" }] := by
  decide

/-- Python regex `\w` at the ASCII level. -/
def isWordChar (c : Char) : Bool := c.isAlphanum || c == '_'

/-- `re.findall(r"\b\w+\b", s)` at the ASCII level: the maximal runs of word
characters, in order. -/
def tokenizeAux : List Char → List Char → List String
  | [], acc => if acc.isEmpty then [] else [String.mk acc.reverse]
  | c :: cs, acc =>
    if isWordChar c then tokenizeAux cs (c :: acc)
    else if acc.isEmpty then tokenizeAux cs []
    else String.mk acc.reverse :: tokenizeAux cs []

/-- `set(re.findall(r"\b\w+\b", s))` from `deduplicate_articles`, modelled as
the duplicate-free token list (first occurrences kept). -/
def wordSet (s : String) : List String :=
  (tokenizeAux s.data []).eraseDups

/-- The title-overlap test of `deduplicate_articles`:
`len(title_words & seen_words) / max(len(title_words), 1) > 0.8`.
For word-set sizes below `2^50` the IEEE-double comparison against the literal
`0.8` coincides with the exact rational test `5·|∩| > 4·max(|w|, 1)` (the
quotient and the literal round to the same double exactly when the quotient
equals 4/5), which is how it is written here. -/
def similar (titleWords : List String) (seenTitle : String) : Bool :=
  5 * ((titleWords.filter (fun w => (wordSet seenTitle).contains w)).length) >
    4 * max titleWords.length 1

/-- The loop of `deduplicate_articles`, threading `seen_titles` (the stored
lower-cased titles) as a list; the Python set only ever feeds the existential
`any`, for which list and set agree. -/
def dedupAux : List Article → List String → List Article
  | [], _ => []
  | a :: rest, seen =>
    if seen.any (fun st => similar (wordSet (lowerStr a.title)) st) then dedupAux rest seen
    else a :: dedupAux rest (lowerStr a.title :: seen)

/-- `ContentProcessor.deduplicate_articles`. -/
def deduplicate_articles (articles : List Article) : List Article :=
  dedupAux articles []

example :
    deduplicate_articles
      [{ title := "OpenAI releases GPT-5 model today" },
       { title := "OpenAI releases GPT-5 model" }] =
    [{ title := "OpenAI releases GPT-5 model today" }] := by decide

/-- `s.split('T')[0]`, the preprocessing `filter_by_date` applies to every
date string before handing it to `strptime`. -/
def takeUntilT : List Char → List Char
  | [] => []
  | c :: cs => if c == 'T' then [] else c :: takeUntilT cs

def beforeT (s : String) : String := String.mk (takeUntilT s.data)

def splitDash : List Char → List Char → List (List Char)
  | [], acc => [acc.reverse]
  | c :: cs, acc => if c == '-' then acc.reverse :: splitDash cs [] else splitDash cs (c :: acc)

def digitsToNat (cs : List Char) : Nat :=
  cs.foldl (fun n c => n * 10 + (c.toNat - 48)) 0

def allDigits (cs : List Char) : Bool := cs.all Char.isDigit

def isLeap (y : Nat) : Bool := (y % 4 == 0 && y % 100 != 0) || y % 400 == 0

def daysInMonth (y m : Nat) : Nat :=
  if m = 2 then (if isLeap y then 29 else 28)
  else if m = 4 ∨ m = 6 ∨ m = 9 ∨ m = 11 then 30 else 31

/-- Days since 1970-01-01 of a civil date (valid for `y ≥ 1`; all divisions are
on non-negative operands). Models the ordinal arithmetic of Python's
`datetime`. -/
def daysFromCivil (y m d : Nat) : Int :=
  ((if m ≤ 2 then (y : Int) - 1 else (y : Int)) / 400) * 146097 +
    ((if m ≤ 2 then (y : Int) - 1 else (y : Int)) -
      ((if m ≤ 2 then (y : Int) - 1 else (y : Int)) / 400) * 400) * 365 +
    ((if m ≤ 2 then (y : Int) - 1 else (y : Int)) -
      ((if m ≤ 2 then (y : Int) - 1 else (y : Int)) / 400) * 400) / 4 -
    ((if m ≤ 2 then (y : Int) - 1 else (y : Int)) -
      ((if m ≤ 2 then (y : Int) - 1 else (y : Int)) / 400) * 400) / 100 +
    (153 * (((m : Int) + 9) % 12) + 2) / 5 + (d : Int) - 1 - 719468

example : daysFromCivil 1970 1 1 = 0 := by decide
example : daysFromCivil 1969 12 31 = -1 := by decide
example : daysFromCivil 2024 2 29 = 19782 := by decide

/-- Model of `datetime.strptime(s, '%Y-%m-%d')` (CPython: four digit year,
one-or-two digit month 1–12 and day 1–31, full match required, then calendar
validation by the `datetime` constructor), returning the parsed instant in
seconds. -/
def parseYMD (s : String) : Option Int :=
  match splitDash s.data [] with
  | [yc, mc, dc] =>
    if allDigits yc ∧ yc.length = 4 ∧ allDigits mc ∧ (mc.length = 1 ∨ mc.length = 2)
        ∧ allDigits dc ∧ (dc.length = 1 ∨ dc.length = 2) then
      if 1 ≤ digitsToNat yc ∧ 1 ≤ digitsToNat mc ∧ digitsToNat mc ≤ 12
          ∧ 1 ≤ digitsToNat dc ∧ digitsToNat dc ≤ daysInMonth (digitsToNat yc) (digitsToNat mc) then
        some (daysFromCivil (digitsToNat yc) (digitsToNat mc) (digitsToNat dc) * 86400)
      else none
    else none
  | _ => none

example : parseYMD "2024-01-10" = some (19732 * 86400) := by decide
example : parseYMD "2024-02-30" = none := by decide
example : parseYMD "not a date" = none := by decide

def weekdayAbbrs : List String := ["mon", "tue", "wed", "thu", "fri", "sat", "sun"]

def monthAbbrs : List String :=
  ["jan", "feb", "mar", "apr", "may", "jun", "jul", "aug", "sep", "oct", "nov", "dec"]

/-- Drop a known name (by its character list) from the front, if present. -/
def dropName : List String → List Char → Option (Nat × List Char)
  | [], _ => none
  | n :: ns, cs =>
    if listHasPre n.data cs then some (0, cs.drop n.length)
    else match dropName ns cs with
      | some (i, rest) => some (i + 1, rest)
      | none => none

/-- Require at least one whitespace character and drop the run (`\s+`, which
CPython substitutes for whitespace in a strptime format). -/
def dropWs1 : List Char → Option (List Char)
  | [] => none
  | c :: cs => if isPyWs c then some (dropWsLead cs) else none

/-- Greedily read one or two digits (CPython's `%d`/`%H`/`%M`/`%S` patterns
prefer the two-digit alternative). -/
def take2Digits : List Char → Option (Nat × List Char)
  | [] => none
  | c :: cs =>
    if c.isDigit then
      match cs with
      | d :: ds => if d.isDigit then some (digitsToNat [c, d], ds) else some (digitsToNat [c], cs)
      | [] => some (digitsToNat [c], [])
    else none

def dropChar (ch : Char) : List Char → Option (List Char)
  | [] => none
  | c :: cs => if c == ch then some cs else none

def take4Digits : List Char → Option (Nat × List Char)
  | c1 :: c2 :: c3 :: c4 :: cs =>
    if c1.isDigit && c2.isDigit && c3.isDigit && c4.isDigit then
      some (digitsToNat [c1, c2, c3, c4], cs)
    else none
  | _ => none

/-- Model of `datetime.strptime(s, '%a, %d %b %Y %H:%M:%S %Z')`: case
handled by lower-casing (CPython lower-cases both sides), abbreviated weekday
and month names, `%Z` restricted to the portable zone names `UTC`/`GMT`
(platform-local zone names are not modelled), calendar and clock validation
folded in (out-of-range fields make `strptime`/`datetime` raise `ValueError`,
which the caller treats as a parse failure). -/
def parseRFC822 (s : String) : Option Int :=
  match dropName weekdayAbbrs (lowerStr s).data with
  | none => none
  | some (_, r1) =>
    match dropChar ',' r1 with
    | none => none
    | some r2 =>
      match dropWs1 r2 with
      | none => none
      | some r3 =>
        match take2Digits r3 with
        | none => none
        | some (d, r4) =>
          match dropWs1 r4 with
          | none => none
          | some r5 =>
            match dropName monthAbbrs r5 with
            | none => none
            | some (mIdx, r6) =>
              match dropWs1 r6 with
              | none => none
              | some r7 =>
                match take4Digits r7 with
                | none => none
                | some (y, r8) =>
                  match dropWs1 r8 with
                  | none => none
                  | some r9 =>
                    match take2Digits r9 with
                    | none => none
                    | some (h, r10) =>
                      match dropChar ':' r10 with
                      | none => none
                      | some r11 =>
                        match take2Digits r11 with
                        | none => none
                        | some (mi, r12) =>
                          match dropChar ':' r12 with
                          | none => none
                          | some r13 =>
                            match take2Digits r13 with
                            | none => none
                            | some (sec, r14) =>
                              match dropWs1 r14 with
                              | none => none
                              | some r15 =>
                                match dropName ["utc", "gmt"] r15 with
                                | none => none
                                | some (_, r16) =>
                                  if r16 = [] ∧ 1 ≤ y ∧ 1 ≤ d
                                      ∧ d ≤ daysInMonth y (mIdx + 1)
                                      ∧ h ≤ 23 ∧ mi ≤ 59 ∧ sec ≤ 59 then
                                    some (daysFromCivil y (mIdx + 1) d * 86400 +
                                      h * 3600 + mi * 60 + sec)
                                  else none

example : parseRFC822 "Mon, 05 Feb 2024 10:30:00 GMT" =
    some (19758 * 86400 + 10 * 3600 + 30 * 60) := by decide
example : parseRFC822 "Mon, 05 Feb 2024 10:30:00 XYZ" = none := by decide

/-- The format loop of `filter_by_date`: the three formats are tried in order
on `s.split('T')[0]`, the first success wins.  The second format,
`'%Y-%m-%dT%H:%M:%S'.split('T')[0]`, is again `'%Y-%m-%d'`. -/
def firstParse (s : String) : Option Int :=
  match parseYMD (beforeT s) with
  | some d => some d
  | none =>
    match parseYMD (beforeT s) with
    | some d => some d
    | none => parseRFC822 (beforeT s)

/-- The keep decision of `filter_by_date` for one record: unparsable dates are
kept (the `for`/`else` and the outer `except` both append), parsed dates are
kept exactly when `article_date >= cutoff_date`, where
`cutoff_date = now - timedelta(days=days_back)`. -/
def keepByDate (daysBack : Nat) (now : Int) (a : Article) : Bool :=
  match firstParse a.date with
  | none => true
  | some d => decide (now - daysBack * 86400 ≤ d)

/-- `ContentProcessor.filter_by_date` (`now` abstracts `datetime.now()` as an
instant in seconds). -/
def filter_by_date (articles : List Article) (daysBack : Nat) (now : Int) : List Article :=
  articles.filter (keepByDate daysBack now)

/-- One `topic_counts[keyword] += 1` on the insertion-ordered counter map
(a `defaultdict(int)`, i.e. a Python dict: an existing key is bumped in place,
a new key is appended). -/
def bumpTopic : List (String × Nat) → String → List (String × Nat)
  | [], k => [(k, 1)]
  | e :: rest, k =>
    if e.1 = k then (e.1, e.2 + 1) :: rest else e :: bumpTopic rest k

/-- The per-article keyword scan of `get_trending_topics` (tiers in dict
order, keywords in list order). -/
def countArticleTopics (l : List (String × Nat)) (a : Article) : List (String × Nat) :=
  all_keywords.foldl
    (fun l2 kw => if strContains (combinedText a) kw then bumpTopic l2 kw else l2) l

def buildCounts (articles : List Article) : List (String × Nat) :=
  articles.foldl countArticleTopics []

/-- The descending-count relation of the final
`sorted(topic_counts.items(), key=lambda x: x[1], reverse=True)`. -/
def topicGeProp (x y : String × Nat) : Prop := y.2 ≤ x.2

instance : DecidableRel topicGeProp := fun x y => by
  unfold topicGeProp; infer_instance

instance : IsTotal (String × Nat) topicGeProp := ⟨fun x y => Nat.le_total y.2 x.2⟩

instance : IsTrans (String × Nat) topicGeProp :=
  ⟨fun _ _ _ h1 h2 => Nat.le_trans h2 h1⟩

/-- `ContentProcessor.get_trending_topics`.  Python's `sorted` is stable; as a
stable sort w.r.t. a total preorder it is modelled by `List.insertionSort`
over `topicGeProp`.  The returned dict is insertion-ordered, hence modelled by
the sorted, truncated list of pairs itself. -/
def get_trending_topics (articles : List Article) : List (String × Nat) :=
  (List.insertionSort topicGeProp (buildCounts articles)).take 10

example :
    get_trending_topics [{ content := "automation" }, { content := "gpt" }] =
      [("automation", 1), ("gpt", 1)] := by decide

/-- The near-duplicate pass as the claim words it: titles are tokenized into
sets of lowercase alphanumeric word tokens, each candidate is compared against
every previously accepted title's word set in batch order (first-seen wins),
and the candidate is dropped exactly when `|intersection| > 0.8 ·
max(|candidate_words|, 1)` for some previously accepted title (spec-side
definition used only for the refinement comparison in C5). -/
def specNearDedup : List Article → List (List String) → List Article
  | [], _ => []
  | a :: rest, seenSets =>
    if seenSets.any (fun sw =>
        5 * ((wordSet (lowerStr a.title)).filter (fun w => sw.contains w)).length >
          4 * max (wordSet (lowerStr a.title)).length 1) then
      specNearDedup rest seenSets
    else a :: specNearDedup rest (wordSet (lowerStr a.title) :: seenSets)

/-- `l₁` is a leading block of `l₂` (used to state that the truncated trending
list agrees with the untruncated one on each count class). -/
def listPre {α : Type} (l₁ l₂ : List α) : Prop := ∃ t, l₁ ++ t = l₂

/-- Value at a key of the association-list counter map (0 when absent),
mirroring `defaultdict(int)` lookup.  Proof-side helper. -/
def lookupCount : List (String × Nat) → String → Nat
  | [], _ => 0
  | e :: rest, k => if e.1 = k then e.2 else lookupCount rest k

/-! ## Theorems -/

/-- C3: the priority classifier evaluates in fixed precedence with first match
winning: score ≥ 10 gives critical; otherwise any critical-indicator phrase in
the lower-cased title+content gives critical (in particular a record containing
"acquisition", e.g. at score 3); otherwise score ≥ 6 or any high-priority
indicator phrase gives high (score exactly 6 included); otherwise score ≥ 4
gives medium (score exactly 4 included); otherwise low (score 3 with no
indicator phrases included). -/
theorem c3_priority_precedence (a : Article) (s : Nat) :
    (10 ≤ s → determine_priority a s = "critical") ∧
    (s < 10 → (critical_terms.any fun t => strContains (combinedText a) t) = true →
      determine_priority a s = "critical") ∧
    (s < 10 → (critical_terms.any fun t => strContains (combinedText a) t) = false →
      (6 ≤ s ∨ (high_priority_terms.any fun t => strContains (combinedText a) t) = true) →
      determine_priority a s = "high") ∧
    (s < 10 → (critical_terms.any fun t => strContains (combinedText a) t) = false →
      s < 6 → (high_priority_terms.any fun t => strContains (combinedText a) t) = false →
      4 ≤ s → determine_priority a s = "medium") ∧
    (s < 10 → (critical_terms.any fun t => strContains (combinedText a) t) = false →
      s < 6 → (high_priority_terms.any fun t => strContains (combinedText a) t) = false →
      s < 4 → determine_priority a s = "low") ∧
    (s < 10 → strContains (combinedText a) "acquisition" = true →
      determine_priority a s = "critical") := by
  refine ⟨?_, ?_, ?_, ?_, ?_, ?_⟩
  · intro h
    unfold determine_priority
    rw [if_pos h]
  · intro h1 h2
    unfold determine_priority
    rw [if_neg (by omega), if_pos h2]
  · intro h1 h2 h3
    unfold determine_priority
    rw [if_neg (by omega), if_neg (by simp [h2]), if_pos h3]
  · intro h1 h2 h3 h4 h5
    unfold determine_priority
    rw [if_neg (by omega), if_neg (by simp [h2]),
      if_neg (by simp [h4]; omega), if_pos h5]
  · intro h1 h2 h3 h4 h5
    unfold determine_priority
    rw [if_neg (by omega), if_neg (by simp [h2]),
      if_neg (by simp [h4]; omega), if_neg (by omega)]
  · intro h1 hacq
    unfold determine_priority
    rw [if_neg (by omega),
      if_pos (List.any_eq_true.mpr ⟨"acquisition", by decide, hacq⟩)]

theorem c3_priority_precedence_witness :
    determine_priority { title := "acquisition" } 3 = "critical" ∧
    determine_priority {} 6 = "high" ∧
    determine_priority {} 4 = "medium" ∧
    determine_priority {} 3 = "low" :=
  ⟨(c3_priority_precedence { title := "acquisition" } 3).2.2.2.2.2 (by decide) (by decide),
   (c3_priority_precedence {} 6).2.2.1 (by decide) (by decide) (Or.inl (by decide)),
   (c3_priority_precedence {} 4).2.2.2.1 (by decide) (by decide) (by decide) (by decide) (by decide),
   (c3_priority_precedence {} 3).2.2.2.2.1 (by decide) (by decide) (by decide) (by decide) (by decide)⟩

theorem scoreFoldEq (a : Article) (w b : Nat) (l : List String) (init : Nat) :
    l.foldl (fun sc kw =>
      if strContains (combinedText a) kw then
        (if strContains (lowerStr a.title) kw then sc + w + b else sc + w)
      else sc) init
    = init + (l.map (fun kw =>
        if strContains (combinedText a) kw then
          (if strContains (lowerStr a.title) kw then w + b else w)
        else 0)).sum := by
  induction l generalizing init with
  | nil => simp
  | cons kw rest ih =>
    simp only [List.foldl_cons, List.map_cons, List.sum_cons]
    split_ifs with h1 h2 <;> rw [ih] <;> omega

theorem techLoopEq (combined : String) (l : List String) :
    ∀ t : Nat, t ≤ 3 →
      techLoop combined l t =
        min (t + (l.filter (fun kw => strContains combined kw)).length) 3 := by
  induction l with
  | nil =>
    intro t ht
    unfold techLoop
    simp
    omega
  | cons kw rest ih =>
    intro t ht
    unfold techLoop
    by_cases hc : strContains combined kw = true
    · by_cases ht3 : t < 3
      · rw [if_pos ⟨hc, ht3⟩, ih (t + 1) (by omega)]
        simp [List.filter_cons, hc]
        omega
      · rw [if_neg (by tauto), ih t ht]
        simp [List.filter_cons, hc]
        omega
    · rw [if_neg (by tauto), ih t ht]
      simp [List.filter_cons, hc]

/-- C4: the relevance score equals the sum over the three keyword tiers —
3 per matching high-priority keyword plus a 2-point title bonus, 2 per matching
medium keyword plus a 1-point title bonus, and the tech-context matches capped
at 3 — where matching is case-insensitive substring containment against the
concatenation of lower-cased title and content; and the scorer is a pure
function of the record's title and content. -/
theorem c4_relevance_score_formula (a : Article) :
    calculate_relevance_score a =
      (high_priority_keywords.map (fun kw =>
        if strContains (combinedText a) kw then
          (if strContains (lowerStr a.title) kw then 3 + 2 else 3)
        else 0)).sum +
      (medium_priority_keywords.map (fun kw =>
        if strContains (combinedText a) kw then
          (if strContains (lowerStr a.title) kw then 2 + 1 else 2)
        else 0)).sum +
      min ((tech_context_keywords.filter (fun kw => strContains (combinedText a) kw)).length) 3 ∧
    ∀ b : Article, a.title = b.title → a.content = b.content →
      calculate_relevance_score a = calculate_relevance_score b := by
  constructor
  · unfold calculate_relevance_score
    rw [scoreFoldEq a 3 2, scoreFoldEq a 2 1,
      techLoopEq (combinedText a) tech_context_keywords 0 (by omega)]
    simp
  · intro b h1 h2
    have hc : combinedText a = combinedText b := by
      unfold combinedText
      rw [h1, h2]
    have htl : lowerStr a.title = lowerStr b.title := by rw [h1]
    unfold calculate_relevance_score
    rw [hc, htl]

theorem c4_relevance_score_formula_witness :
    calculate_relevance_score { title := "x", content := "y", url := "u" } =
      calculate_relevance_score { title := "x", content := "y", url := "v" } :=
  (c4_relevance_score_formula { title := "x", content := "y", url := "u" }).2
    { title := "x", content := "y", url := "v" } rfl rfl

/-- C2: for a record whose date string parses (under the filter's format loop)
to instant `d`, the record is kept by the date filter exactly when
`d ≥ cutoff`, where `cutoff = now - days_back` days — in particular a record
whose parsed date equals the cutoff is retained, and one with `d < cutoff`
is dropped. -/
theorem c2_date_filter_boundary (articles : List Article) (daysBack : Nat) (now : Int)
    (a : Article) (d : Int) (ha : a ∈ articles) (hp : firstParse a.date = some d) :
    (a ∈ filter_by_date articles daysBack now ↔ now - daysBack * 86400 ≤ d) ∧
    (d = now - daysBack * 86400 → a ∈ filter_by_date articles daysBack now) := by
  have hiff : a ∈ filter_by_date articles daysBack now ↔ now - daysBack * 86400 ≤ d := by
    unfold filter_by_date
    rw [List.mem_filter]
    unfold keepByDate
    rw [hp]
    simp [ha]
  exact ⟨hiff, fun he => hiff.mpr (by omega)⟩

theorem c2_date_filter_boundary_witness :
    ({ date := "2024-01-10" } : Article) ∈
      filter_by_date [{ date := "2024-01-10" }] 7 (daysFromCivil 2024 1 17 * 86400) :=
  (c2_date_filter_boundary [{ date := "2024-01-10" }] 7 (daysFromCivil 2024 1 17 * 86400)
      { date := "2024-01-10" } (19732 * 86400) (by decide) (by decide)).2 (by decide)

/-- C7: a record whose date string fails all parse attempts of the filter's
format loop is kept (fail-open); the filter is total, so no error escapes. -/
theorem c7_unparsable_date_fail_open (articles : List Article) (daysBack : Nat) (now : Int)
    (a : Article) (ha : a ∈ articles) (hp : firstParse a.date = none) :
    a ∈ filter_by_date articles daysBack now := by
  unfold filter_by_date
  rw [List.mem_filter]
  refine ⟨ha, ?_⟩
  unfold keepByDate
  rw [hp]

theorem c7_unparsable_date_fail_open_witness :
    ({ date := "hello" } : Article) ∈ filter_by_date [{ date := "hello" }] 7 0 :=
  c7_unparsable_date_fail_open [{ date := "hello" }] 7 0 { date := "hello" }
    (by decide) (by decide)

theorem dedupAux_idem (l : List Article) :
    ∀ seen : List String, dedupAux (dedupAux l seen) seen = dedupAux l seen := by
  induction l with
  | nil => intro _; rfl
  | cons a rest ih =>
    intro seen
    by_cases h : (seen.any fun st => similar (wordSet (lowerStr a.title)) st) = true
    · rw [show dedupAux (a :: rest) seen = dedupAux rest seen from by
        simp [dedupAux, h]]
      exact ih seen
    · rw [show dedupAux (a :: rest) seen = a :: dedupAux rest (lowerStr a.title :: seen) from by
        simp [dedupAux, h]]
      rw [show dedupAux (a :: dedupAux rest (lowerStr a.title :: seen)) seen =
          a :: dedupAux (dedupAux rest (lowerStr a.title :: seen)) (lowerStr a.title :: seen) from by
        simp [dedupAux, h]]
      rw [ih (lowerStr a.title :: seen)]

/-- C9: the near-duplicate pass is idempotent — running it again over its own
output returns that output unchanged, same records and same order. -/
theorem c9_dedup_idempotent (articles : List Article) :
    deduplicate_articles (deduplicate_articles articles) = deduplicate_articles articles :=
  dedupAux_idem articles []

theorem dedupAux_eq_spec (l : List Article) :
    ∀ seen : List String, dedupAux l seen = specNearDedup l (seen.map wordSet) := by
  induction l with
  | nil => intro _; rfl
  | cons a rest ih =>
    intro seen
    have hcond : (seen.any fun st => similar (wordSet (lowerStr a.title)) st) =
        ((seen.map wordSet).any fun sw =>
          5 * ((wordSet (lowerStr a.title)).filter (fun w => sw.contains w)).length >
            4 * max (wordSet (lowerStr a.title)).length 1) := by
      induction seen with
      | nil => rfl
      | cons s ss ihs =>
        simp only [List.any_cons, List.map_cons]
        rw [ihs]
        rfl
    by_cases h : (seen.any fun st => similar (wordSet (lowerStr a.title)) st) = true
    · rw [show dedupAux (a :: rest) seen = dedupAux rest seen from by simp [dedupAux, h],
        show specNearDedup (a :: rest) (seen.map wordSet) =
          specNearDedup rest (seen.map wordSet) from by
            simp only [specNearDedup]
            rw [if_pos (hcond ▸ h)]]
      exact ih seen
    · rw [show dedupAux (a :: rest) seen = a :: dedupAux rest (lowerStr a.title :: seen) from by
        simp [dedupAux, h],
        show specNearDedup (a :: rest) (seen.map wordSet) =
          a :: specNearDedup rest (wordSet (lowerStr a.title) :: seen.map wordSet) from by
            simp only [specNearDedup]
            rw [if_neg (fun hx => h (hcond ▸ hx))]]
      rw [ih (lowerStr a.title :: seen)]
      rfl

/-- C5: the near-duplicate pass tokenizes titles into lowercase word-token
sets, compares each candidate against every previously accepted title's word
set in batch order (first-seen wins), and drops the candidate exactly when
`|intersection| / max(|candidate_words|, 1) > 0.8` for some accepted title;
"OpenAI releases GPT-5 model" is flagged a duplicate of "OpenAI releases GPT-5
model today", while "OpenAI releases GPT-5" followed by "Google releases
Gemini 2" are both kept. -/
theorem c5_near_dedup_rule :
    (∀ articles : List Article,
      deduplicate_articles articles = specNearDedup articles []) ∧
    deduplicate_articles
        [{ title := "OpenAI releases GPT-5 model today" },
         { title := "OpenAI releases GPT-5 model" }] =
      [{ title := "OpenAI releases GPT-5 model today" }] ∧
    deduplicate_articles
        [{ title := "OpenAI releases GPT-5" }, { title := "Google releases Gemini 2" }] =
      [{ title := "OpenAI releases GPT-5" }, { title := "Google releases Gemini 2" }] :=
  ⟨fun articles => dedupAux_eq_spec articles [], by decide, by decide⟩

/-- C10: the computed hash is a function only of `title + content`: two
hashless records with equal concatenations get equal hashes, and if the first
passes the relevance threshold the second is dropped by the exact-duplicate
pass, so the output of processing the two-record batch is exactly the enriched
first record. -/
theorem c10_hash_concat_collision (md5hex : String → String) (now : String)
    (r1 r2 : Article) (h1 : r1.hash = none) (h2 : r2.hash = none)
    (hcat : r1.title ++ r1.content = r2.title ++ r2.content) :
    (withHash md5hex r1).hash = (withHash md5hex r2).hash ∧
    (2 ≤ calculate_relevance_score (withHash md5hex r1) →
      (process_articles md5hex now [r1, r2] []).1 =
        [enrich now (withHash md5hex r1) (calculate_relevance_score (withHash md5hex r1))]) := by
  have e1 : (withHash md5hex r1).hash = some (md5hex (r1.title ++ r1.content)) := by
    unfold withHash
    rw [h1]
    simp
  have e2 : (withHash md5hex r2).hash = some (md5hex (r2.title ++ r2.content)) := by
    unfold withHash
    rw [h2]
    simp
  refine ⟨by rw [e1, e2, hcat], fun hscore => ?_⟩
  have g1 : (withHash md5hex r1).hash.getD "" = md5hex (r1.title ++ r1.content) := by
    rw [e1]
    rfl
  have g2 : (withHash md5hex r2).hash.getD "" = md5hex (r2.title ++ r2.content) := by
    rw [e2]
    rfl
  have hmem : (withHash md5hex r2).hash.getD "" ∈ [(withHash md5hex r1).hash.getD ""] := by
    rw [g1, g2, hcat]
    exact List.mem_singleton.mpr rfl
  unfold process_articles
  rw [show processLoop md5hex now [r1, r2] [] =
      (enrich now (withHash md5hex r1) (calculate_relevance_score (withHash md5hex r1)) ::
        (processLoop md5hex now [r2] [(withHash md5hex r1).hash.getD ""]).1,
       (processLoop md5hex now [r2] [(withHash md5hex r1).hash.getD ""]).2) from by
    simp only [processLoop]
    rw [if_neg (List.not_mem_nil _), if_pos hscore]]
  rw [show processLoop md5hex now [r2] [(withHash md5hex r1).hash.getD ""] =
      processLoop md5hex now [] [(withHash md5hex r1).hash.getD ""] from by
    simp only [processLoop]
    rw [if_pos hmem]]
  simp [List.insertionSort, List.orderedInsert, processLoop]

theorem c10_hash_concat_collision_witness :
    (withHash (fun s => s) { title := "gpt ai model" }).hash =
        (withHash (fun s => s) { title := "gpt ai", content := " model" }).hash ∧
    (process_articles (fun s => s) "t"
        [{ title := "gpt ai model" }, { title := "gpt ai", content := " model" }] []).1 =
      [enrich "t" (withHash (fun s => s) { title := "gpt ai model" })
        (calculate_relevance_score (withHash (fun s => s) { title := "gpt ai model" }))] :=
  ⟨(c10_hash_concat_collision (fun s => s) "t" { title := "gpt ai model" }
      { title := "gpt ai", content := " model" } rfl rfl (by decide)).1,
   (c10_hash_concat_collision (fun s => s) "t" { title := "gpt ai model" }
      { title := "gpt ai", content := " model" } rfl rfl (by decide)).2 (by decide)⟩

theorem charListLe_total : ∀ a b : List Char, charListLe a b = true ∨ charListLe b a = true := by
  intro a
  induction a with
  | nil => intro b; left; rfl
  | cons c cs ih =>
    intro b
    cases b with
    | nil => right; rfl
    | cons d ds =>
      by_cases h : c = d
      · subst h
        simp only [charListLe, if_pos rfl]
        exact ih ds
      · simp only [charListLe, if_neg h, if_neg (Ne.symm h)]
        rcases lt_trichotomy c d with hlt | heq | hgt
        · left; exact decide_eq_true hlt
        · exact absurd heq h
        · right; exact decide_eq_true hgt

theorem charListLe_trans : ∀ a b c : List Char,
    charListLe a b = true → charListLe b c = true → charListLe a c = true := by
  intro a
  induction a with
  | nil => intro b c _ _; rfl
  | cons x xs ih =>
    intro b c hab hbc
    cases b with
    | nil => simp [charListLe] at hab
    | cons y ys =>
      cases c with
      | nil => simp [charListLe] at hbc
      | cons z zs =>
        simp only [charListLe] at hab hbc ⊢
        by_cases hxy : x = y
        · subst hxy
          rw [if_pos rfl] at hab
          by_cases hyz : x = z
          · subst hyz
            rw [if_pos rfl] at hbc ⊢
            exact ih ys zs hab hbc
          · rw [if_neg hyz] at hbc ⊢
            exact hbc
        · rw [if_neg hxy] at hab
          have hxy' : x < y := of_decide_eq_true hab
          by_cases hyz : y = z
          · subst hyz
            rw [if_neg hxy]
            exact hab
          · rw [if_neg hyz] at hbc
            have hyz' : y < z := of_decide_eq_true hbc
            have hxz : x < z := lt_trans hxy' hyz'
            rw [if_neg (ne_of_lt hxz)]
            exact decide_eq_true hxz

instance : IsTotal Article keyGeProp := ⟨by
  intro a b
  unfold keyGeProp
  rcases Nat.lt_trichotomy (a.relevance_score.getD 0) (b.relevance_score.getD 0) with h | h | h
  · right; left; exact h
  · rcases charListLe_total b.date.data a.date.data with hs | hs
    · left; right; exact ⟨h, hs⟩
    · right; right; exact ⟨h.symm, hs⟩
  · left; left; exact h⟩

instance : IsTrans Article keyGeProp := ⟨by
  intro a b c hab hbc
  unfold keyGeProp at hab hbc ⊢
  rcases hab with h1 | ⟨h1e, h1s⟩ <;> rcases hbc with h2 | ⟨h2e, h2s⟩
  · left; omega
  · left; omega
  · left; omega
  · right
    exact ⟨by omega, charListLe_trans c.date.data b.date.data a.date.data h2s h1s⟩⟩

/-- C8: the list returned by the orchestrator's main pass is sorted descending
by the lexicographic tuple `(relevance_score, date)`, with the date compared
as raw text (`keyGeProp` is exactly that tuple order, with `strLe` the raw
code-point order on the date strings). -/
theorem c8_output_sorted (md5hex : String → String) (now : String)
    (articles : List Article) (seen : List String) :
    (process_articles md5hex now articles seen).1.Pairwise keyGeProp :=
  List.sorted_insertionSort keyGeProp (processLoop md5hex now articles seen).1

theorem processLoop_enriched (md5hex : String → String) (now : String)
    (articles : List Article) :
    ∀ (seen : List String) (a : Article), a ∈ (processLoop md5hex now articles seen).1 →
      ∃ s, a.relevance_score = some s ∧ 2 ≤ s ∧
        a.priority.isSome = true ∧ a.summary.isSome = true ∧
        a.processed_date.isSome = true := by
  induction articles with
  | nil =>
    intro seen a h
    simp [processLoop] at h
  | cons x rest ih =>
    intro seen a h
    simp only [processLoop] at h
    split_ifs at h with hdup hsc
    · exact ih seen a h
    · simp only [] at h
      rcases List.mem_cons.mp h with rfl | h'
      · exact ⟨calculate_relevance_score (withHash md5hex x), rfl, hsc, rfl, rfl, rfl⟩
      · exact ih _ a h'
    · exact ih seen a h

/-- C1: every record in the output list of the orchestrator's main pass has a
relevance score of at least 2 and all four enriched fields (relevance_score,
priority, summary, processed_date) populated. -/
theorem c1_output_enriched (md5hex : String → String) (now : String)
    (articles : List Article) (seen : List String) (a : Article)
    (ha : a ∈ (process_articles md5hex now articles seen).1) :
    ∃ s, a.relevance_score = some s ∧ 2 ≤ s ∧
      a.priority.isSome = true ∧ a.summary.isSome = true ∧
      a.processed_date.isSome = true := by
  unfold process_articles at ha
  rw [List.mem_insertionSort] at ha
  exact processLoop_enriched md5hex now articles seen a ha

theorem lookupCount_bump_self (l : List (String × Nat)) (k : String) :
    lookupCount (bumpTopic l k) k = lookupCount l k + 1 := by
  induction l with
  | nil => simp [bumpTopic, lookupCount]
  | cons e rest ih =>
    by_cases h : e.1 = k
    · simp [bumpTopic, lookupCount, h]
    · simp [bumpTopic, lookupCount, h, ih]

theorem lookupCount_bump_ne (l : List (String × Nat)) (k k' : String) (hne : k ≠ k') :
    lookupCount (bumpTopic l k) k' = lookupCount l k' := by
  induction l with
  | nil => simp [bumpTopic, lookupCount, hne]
  | cons e rest ih =>
    by_cases h : e.1 = k
    · simp only [bumpTopic, if_pos h, lookupCount]
      rw [if_neg (h ▸ hne), if_neg (h ▸ hne)]
    · simp only [bumpTopic, if_neg h, lookupCount]
      by_cases h2 : e.1 = k'
      · rw [if_pos h2, if_pos h2]
      · rw [if_neg h2, if_neg h2]
        exact ih

theorem mem_bumpTopic (l : List (String × Nat)) (k : String) (e : String × Nat)
    (he : e ∈ bumpTopic l k) : e.1 = k ∨ e ∈ l := by
  induction l with
  | nil =>
    simp only [bumpTopic, List.mem_singleton] at he
    left
    rw [he]
  | cons f rest ih =>
    by_cases h : f.1 = k
    · rw [show bumpTopic (f :: rest) k = (f.1, f.2 + 1) :: rest from by
        simp [bumpTopic, h]] at he
      rcases List.mem_cons.mp he with rfl | he'
      · left; exact h
      · right; exact List.mem_cons_of_mem f he'
    · rw [show bumpTopic (f :: rest) k = f :: bumpTopic rest k from by
        simp [bumpTopic, h]] at he
      rcases List.mem_cons.mp he with rfl | he'
      · right; exact List.mem_cons_self e rest
      · rcases ih he' with h1 | h1
        · left; exact h1
        · right; exact List.mem_cons_of_mem f h1

theorem nodupKeys_bumpTopic (l : List (String × Nat)) (k : String)
    (h : (l.map Prod.fst).Nodup) : ((bumpTopic l k).map Prod.fst).Nodup := by
  induction l with
  | nil => simp [bumpTopic]
  | cons f rest ih =>
    rw [List.map_cons, List.nodup_cons] at h
    by_cases hk : f.1 = k
    · rw [show bumpTopic (f :: rest) k = (f.1, f.2 + 1) :: rest from by
        simp [bumpTopic, hk]]
      rw [List.map_cons, List.nodup_cons]
      exact h
    · rw [show bumpTopic (f :: rest) k = f :: bumpTopic rest k from by
        simp [bumpTopic, hk]]
      rw [List.map_cons, List.nodup_cons]
      refine ⟨?_, ih h.2⟩
      intro hmem
      rcases List.mem_map.mp hmem with ⟨e, he, hfe⟩
      rcases mem_bumpTopic rest k e he with h1 | h1
      · exact hk (by rw [← hfe, h1])
      · exact h.1 (hfe ▸ List.mem_map_of_mem Prod.fst h1)

theorem value_eq_lookupCount (l : List (String × Nat)) (h : (l.map Prod.fst).Nodup) :
    ∀ e ∈ l, e.2 = lookupCount l e.1 := by
  induction l with
  | nil => intro e he; simp at he
  | cons f rest ih =>
    rw [List.map_cons, List.nodup_cons] at h
    intro e he
    rcases List.mem_cons.mp he with rfl | he'
    · simp [lookupCount]
    · have hne : f.1 ≠ e.1 := by
        intro hcontra
        exact h.1 (hcontra ▸ List.mem_map_of_mem Prod.fst he')
      simp only [lookupCount]
      rw [if_neg hne]
      exact ih h.2 e he'

theorem lookupCount_foldKw (a : Article) (k : String) :
    ∀ (kws : List String) (l : List (String × Nat)),
      lookupCount
        (kws.foldl (fun l2 kw =>
          if strContains (combinedText a) kw then bumpTopic l2 kw else l2) l) k
      = lookupCount l k + (if strContains (combinedText a) k then kws.count k else 0) := by
  intro kws
  induction kws with
  | nil =>
    intro l
    simp
  | cons kw rest ih =>
    intro l
    simp only [List.foldl_cons]
    rw [ih]
    by_cases hk : kw = k
    · subst hk
      by_cases hm : strContains (combinedText a) kw = true
      · rw [if_pos hm, if_pos hm, if_pos hm, lookupCount_bump_self, List.count_cons_self]
        omega
      · rw [if_neg hm, if_neg hm, if_neg hm]
    · rw [show ((kw :: rest).count k) = rest.count k from
        List.count_cons_of_ne (fun hc => hk hc.symm) rest]
      by_cases hm : strContains (combinedText a) kw = true
      · rw [if_pos hm, lookupCount_bump_ne l kw k hk]
      · rw [if_neg hm]

theorem lookupCount_buildCounts (k : String) :
    ∀ (arts : List Article) (l : List (String × Nat)),
      lookupCount (arts.foldl countArticleTopics l) k
      = lookupCount l k +
          all_keywords.count k * arts.countP (fun a => strContains (combinedText a) k) := by
  intro arts
  induction arts with
  | nil =>
    intro l
    simp
  | cons a rest ih =>
    intro l
    simp only [List.foldl_cons]
    rw [ih]
    rw [show lookupCount (countArticleTopics l a) k =
        lookupCount l k + (if strContains (combinedText a) k then all_keywords.count k else 0) from
      lookupCount_foldKw a k all_keywords l]
    rw [List.countP_cons]
    by_cases hm : strContains (combinedText a) k = true
    · rw [if_pos hm, if_pos hm]
      ring
    · rw [if_neg hm, if_neg hm]
      ring

theorem goodCounts_foldKw (a : Article) :
    ∀ (kws : List String) (l : List (String × Nat)),
      (∀ kw ∈ kws, kw ∈ all_keywords) →
      (l.map Prod.fst).Nodup ∧ (∀ e ∈ l, e.1 ∈ all_keywords) →
      (((kws.foldl (fun l2 kw =>
          if strContains (combinedText a) kw then bumpTopic l2 kw else l2) l).map
        Prod.fst).Nodup ∧
        ∀ e ∈ kws.foldl (fun l2 kw =>
          if strContains (combinedText a) kw then bumpTopic l2 kw else l2) l,
          e.1 ∈ all_keywords) := by
  intro kws
  induction kws with
  | nil =>
    intro l _ h
    exact h
  | cons kw rest ih =>
    intro l hkws h
    simp only [List.foldl_cons]
    apply ih
    · intro kw2 hkw2
      exact hkws kw2 (List.mem_cons_of_mem _ hkw2)
    · by_cases hm : strContains (combinedText a) kw = true
      · rw [if_pos hm]
        refine ⟨nodupKeys_bumpTopic l kw h.1, ?_⟩
        intro e he
        rcases mem_bumpTopic l kw e he with h1 | h1
        · rw [h1]
          exact hkws kw (List.mem_cons_self _ _)
        · exact h.2 e h1
      · rw [if_neg hm]
        exact h

theorem goodCounts_buildCounts :
    ∀ (arts : List Article) (l : List (String × Nat)),
      (l.map Prod.fst).Nodup ∧ (∀ e ∈ l, e.1 ∈ all_keywords) →
      (((arts.foldl countArticleTopics l).map Prod.fst).Nodup ∧
        ∀ e ∈ arts.foldl countArticleTopics l, e.1 ∈ all_keywords) := by
  intro arts
  induction arts with
  | nil =>
    intro l h
    exact h
  | cons a rest ih =>
    intro l h
    simp only [List.foldl_cons]
    exact ih _ (goodCounts_foldKw a all_keywords l (fun kw hk => hk) h)

theorem all_keywords_nodup : all_keywords.Nodup := by decide

theorem filter_take_pre {α : Type} (p : α → Bool) :
    ∀ (n : Nat) (l : List α), listPre ((l.take n).filter p) (l.filter p) := by
  intro n l
  induction l generalizing n with
  | nil => exact ⟨[], by simp⟩
  | cons x xs ih =>
    cases n with
    | zero => exact ⟨(x :: xs).filter p, by simp⟩
    | succ m =>
      rcases ih m with ⟨t, ht⟩
      by_cases hp : p x = true
      · exact ⟨t, by simp [List.take_succ_cons, List.filter_cons, hp, ht]⟩
      · exact ⟨t, by simp [List.take_succ_cons, List.filter_cons, hp, ht]⟩

/-- C6 counterexample: on the concrete batch below, the trending extractor
returns the equal-count entries `automation` (first counted, medium tier) and
`gpt` (high tier, earlier in the tier-list enumeration) in counter-insertion
order, which violates the claimed tie-break by relative enumeration order in
the tier lists. -/
theorem c6_trending_tie_counterexample :
    get_trending_topics [{ content := "automation" }, { content := "gpt" }] =
        [("automation", 1), ("gpt", 1)] ∧
    all_keywords.indexOf "gpt" < all_keywords.indexOf "automation" ∧
    ¬ (get_trending_topics [{ content := "automation" }, { content := "gpt" }]).Pairwise
        (fun x y => y.2 < x.2 ∨
          (x.2 = y.2 ∧ all_keywords.indexOf x.1 < all_keywords.indexOf y.1)) := by
  refine ⟨by decide, by decide, ?_⟩
  intro hpw
  rw [show get_trending_topics [{ content := "automation" }, { content := "gpt" }] =
      [("automation", 1), ("gpt", 1)] from by decide] at hpw
  rcases List.pairwise_cons.mp hpw with ⟨h1, _⟩
  rcases h1 ("gpt", 1) (List.mem_singleton.mpr rfl) with h | ⟨_, h⟩
  · exact absurd h (by decide)
  · exact absurd h (by decide)

/-- C6 amended: the trending-topic extractor returns at most 10
keyword-to-count entries, ordered descending by count, each count being the
number of records whose lower-cased title+content contains the keyword as a
substring; ties among equal counts keep the counter map's insertion order —
the order in which the keywords were first counted (first matching record in
batch order, tiers scanned in enumeration order within a record) — not the
keywords' global enumeration order in the tier lists. -/
theorem c6_trending_amended (articles : List Article) :
    (get_trending_topics articles).length ≤ 10 ∧
    (get_trending_topics articles).Pairwise topicGeProp ∧
    (∀ e ∈ get_trending_topics articles,
      e.2 = articles.countP (fun a => strContains (combinedText a) e.1)) ∧
    (∀ n : Nat, listPre
      ((get_trending_topics articles).filter (fun e => e.2 = n))
      ((buildCounts articles).filter (fun e => e.2 = n))) := by
  have hgood := goodCounts_buildCounts articles []
    ⟨List.nodup_nil, fun e he => absurd he (List.not_mem_nil e)⟩
  refine ⟨List.length_take_le 10 _, ?_, ?_, ?_⟩
  · exact List.Pairwise.sublist (List.take_sublist 10 _)
      (List.sorted_insertionSort topicGeProp (buildCounts articles))
  · intro e he
    have he2 : e ∈ List.insertionSort topicGeProp (buildCounts articles) :=
      List.take_subset 10 _ he
    have he3 : e ∈ buildCounts articles := (List.mem_insertionSort topicGeProp).mp he2
    have hval : e.2 = lookupCount (buildCounts articles) e.1 :=
      value_eq_lookupCount (buildCounts articles) hgood.1 e he3
    have hlk : lookupCount (buildCounts articles) e.1 =
        lookupCount [] e.1 + all_keywords.count e.1 *
          articles.countP (fun a => strContains (combinedText a) e.1) :=
      lookupCount_buildCounts e.1 articles []
    have hone : all_keywords.count e.1 = 1 :=
      List.count_eq_one_of_mem all_keywords_nodup (hgood.2 e he3)
    rw [hval, hlk, hone]
    simp [lookupCount]
  · intro n
    have hpw : ((buildCounts articles).filter (fun e => e.2 = n)).Pairwise topicGeProp := by
      apply List.pairwise_of_forall_mem_list
      intro x hx y hy
      have hx2 : x.2 = n := of_decide_eq_true (List.mem_filter.mp hx).2
      have hy2 : y.2 = n := of_decide_eq_true (List.mem_filter.mp hy).2
      unfold topicGeProp
      omega
    have hsubl : List.Sublist ((buildCounts articles).filter (fun e => e.2 = n))
        (List.insertionSort topicGeProp (buildCounts articles)) :=
      List.sublist_insertionSort hpw (List.filter_sublist _)
    have hsubl2 : List.Sublist ((buildCounts articles).filter (fun e => e.2 = n))
        ((List.insertionSort topicGeProp (buildCounts articles)).filter (fun e => e.2 = n)) := by
      have hs := hsubl.filter (fun e => decide (e.2 = n))
      rwa [List.filter_eq_self.mpr (fun a ha => (List.mem_filter.mp ha).2)] at hs
    have hperm : List.Perm
        ((List.insertionSort topicGeProp (buildCounts articles)).filter (fun e => e.2 = n))
        ((buildCounts articles).filter (fun e => e.2 = n)) :=
      (List.perm_insertionSort topicGeProp (buildCounts articles)).filter _
    have heq : ((List.insertionSort topicGeProp (buildCounts articles)).filter
          (fun e => e.2 = n))
        = ((buildCounts articles).filter (fun e => e.2 = n)) :=
      (List.Sublist.eq_of_length hsubl2 hperm.length_eq.symm).symm
    have hpre := filter_take_pre (fun e => decide (e.2 = n)) 10
      (List.insertionSort topicGeProp (buildCounts articles))
    unfold get_trending_topics
    rw [← heq]
    exact hpre

theorem c6_trending_amended_witness :
    (get_trending_topics [{ content := "automation" }, { content := "gpt" }]).length ≤ 10 ∧
    (1 : Nat) = ([{ content := "automation" }, { content := "gpt" }] : List Article).countP
        (fun a => strContains (combinedText a) "automation") :=
  ⟨(c6_trending_amended [{ content := "automation" }, { content := "gpt" }]).1,
   (c6_trending_amended [{ content := "automation" }, { content := "gpt" }]).2.2.1
      ("automation", 1) (by decide)⟩

theorem c1_output_enriched_witness :
    ∃ s, ({ title := "gpt", hash := some "gpt", relevance_score := some 5,
            priority := some "medium", summary := some "",
            processed_date := some "t" } : Article).relevance_score = some s ∧ 2 ≤ s ∧
      ({ title := "gpt", hash := some "gpt", relevance_score := some 5,
         priority := some "medium", summary := some "",
         processed_date := some "t" } : Article).priority.isSome = true ∧
      ({ title := "gpt", hash := some "gpt", relevance_score := some 5,
         priority := some "medium", summary := some "",
         processed_date := some "t" } : Article).summary.isSome = true ∧
      ({ title := "gpt", hash := some "gpt", relevance_score := some 5,
         priority := some "medium", summary := some "",
         processed_date := some "t" } : Article).processed_date.isSome = true :=
  c1_output_enriched (fun s => s) "t" [{ title := "gpt" }] []
    { title := "gpt", hash := some "gpt", relevance_score := some 5,
      priority := some "medium", summary := some "", processed_date := some "t" }
    (by decide)
